import Mathlib

/-!
Shallow embedding of the ip-utils library (src/addr.rs and src/net.rs).

Machine integers are modelled as Nat: a Rust u32 value is a Nat below 2^32,
the bitwise complement of a u32 value x is u32::MAX - x, and the u64
arithmetic in num_hosts reduces modulo 2^64.  Fallible constructors return
Option, exactly as in the source.
-/

/-- u32::MAX, i.e. 2^32 - 1. -/
def U32_MAX : Nat := 2 ^ 32 - 1

/-- Bitwise complement of a u32 value: for x ≤ u32::MAX, !x = u32::MAX - x. -/
def u32not (x : Nat) : Nat := U32_MAX - x

/-- u32::from_be_bytes: combine four octets a.b.c.d in big-endian order. -/
def u32fromBeBytes : Nat × Nat × Nat × Nat → Nat
  | (a, b, c, d) => a * 2 ^ 24 + b * 2 ^ 16 + c * 2 ^ 8 + d

/-- u32::to_be_bytes: split a u32 value into four octets, most significant first. -/
def u32toBeBytes (v : Nat) : Nat × Nat × Nat × Nat :=
  (v / 2 ^ 24 % 256, v / 2 ^ 16 % 256, v / 2 ^ 8 % 256, v % 256)

/-- IpAddress from src/addr.rs: a newtype over a u32 value. -/
structure IpAddress where
  val : Nat
deriving DecidableEq

/-- IpAddress::new and the From<u32> conversion: store the value as-is. -/
def IpAddress.new (value : Nat) : IpAddress := ⟨value⟩

/-- The From<[u8; 4]> conversion for IpAddress: via u32::from_be_bytes. -/
def IpAddress.fromOctets (o : Nat × Nat × Nat × Nat) : IpAddress :=
  IpAddress.new (u32fromBeBytes o)

/-- IpAddress::octets: u32::to_be_bytes of the underlying value. -/
def IpAddress.octets (a : IpAddress) : Nat × Nat × Nat × Nat :=
  u32toBeBytes a.val

/-- The Display impl for IpAddress: "a.b.c.d" with each octet in decimal. -/
def IpAddress.render (a : IpAddress) : String :=
  Nat.repr a.octets.1 ++ "." ++ Nat.repr a.octets.2.1 ++ "." ++
    Nat.repr a.octets.2.2.1 ++ "." ++ Nat.repr a.octets.2.2.2

/-- IpNetwork from src/net.rs: a base address and a prefix length in bits. -/
structure IpNetwork where
  base : IpAddress
  prefix_len : Nat
deriving DecidableEq

/-- IpNetwork::new: succeeds iff the prefix length lies in 0..=32, storing
base and prefix length unchanged. -/
def IpNetwork.new (base : IpAddress) (prefix_len : Nat) : Option IpNetwork :=
  if 0 ≤ prefix_len ∧ prefix_len ≤ 32 then some ⟨base, prefix_len⟩ else none

/-- IpNetwork::num_network_bits: the stored prefix length. -/
def IpNetwork.num_network_bits (n : IpNetwork) : Nat := n.prefix_len

/-- IpNetwork::num_host_bits: 32 - num_network_bits (u8 subtraction; a valid
network has prefix_len ≤ 32, so the subtraction does not underflow). -/
def IpNetwork.num_host_bits (n : IpNetwork) : Nat := 32 - n.num_network_bits

/-- IpNetwork::num_hosts: 2_u64.pow(num_host_bits), computed in u64. -/
def IpNetwork.num_hosts (n : IpNetwork) : Nat := 2 ^ n.num_host_bits % 2 ^ 64

/-- IpNetwork::supernet: none at prefix length 0, otherwise the same base at
a prefix length one shorter. -/
def IpNetwork.supernet (n : IpNetwork) : Option IpNetwork :=
  match n.num_network_bits with
  | 0 => none
  | m + 1 => IpNetwork.new n.base m

/-- IpNetwork::subnets: the lower subnet keeps the base at prefix_len + 1;
the upper subnet additionally sets the newly exposed bit, at bit position
num_host_bits of the lower subnet. -/
def IpNetwork.subnets (n : IpNetwork) : Option (IpNetwork × IpNetwork) :=
  match IpNetwork.new n.base (n.num_network_bits + 1) with
  | some lower =>
      some ({ lower with
                base := IpAddress.new (lower.base.val ||| 1 <<< lower.num_host_bits) },
            lower)
  | none => none

/-- IpNetwork::get_mask: the all-ones value at prefix length 32 (explicit
overflow check in the source), otherwise !(u32::MAX >> prefix_len). -/
def IpNetwork.get_mask (n : IpNetwork) : IpAddress :=
  if n.num_network_bits = 32 then IpAddress.new U32_MAX
  else IpAddress.new (u32not (U32_MAX >>> n.num_network_bits))

/-- The Display impl for IpNetwork: "base/prefix_len". -/
def IpNetwork.render (n : IpNetwork) : String :=
  n.base.render ++ "/" ++ Nat.repr n.num_network_bits

/-- The set of addresses a network covers, as the spec describes it
(glossary: the prefix length is the count of leading bits that must match
the base address for an address to lie within the network): an address is
covered when it agrees with the base after the host bits are discarded. -/
def IpNetwork.covers (n : IpNetwork) (a : Nat) : Bool :=
  a / 2 ^ n.num_host_bits == n.base.val / 2 ^ n.num_host_bits

/-- The addresses covered by at least one of two networks. -/
def covers_either (m k : IpNetwork) (a : Nat) : Bool :=
  m.covers a || k.covers a

/-- The addresses covered by both of two networks. -/
def covers_both (m k : IpNetwork) (a : Nat) : Bool :=
  m.covers a && k.covers a

/-- The empty address predicate. -/
def coversNone (_ : Nat) : Bool := false

/-- Taking the lower subnet of a network and then its supernet. -/
def lower_then_supernet (n : IpNetwork) : Option IpNetwork :=
  Option.bind n.subnets (fun pr => pr.2.supernet)

/-! Helper lemmas about Nat bit arithmetic. -/

/-- Setting a clear bit with a bitwise or is addition of that power of two. -/
theorem lor_two_pow_eq_add {i b : Nat} (h : b / 2 ^ i % 2 = 0) :
    b ||| 2 ^ i = b + 2 ^ i := by
  induction i generalizing b with
  | zero =>
    have h1 : (b ||| 1) % 2 = 1 := by
      rw [Nat.or_mod_two_eq_one]
      right
      rfl
    have h2 : (b ||| 1) / 2 = b / 2 := by
      rw [Nat.or_div_two]
      simp
    simp only [pow_zero, Nat.div_one] at h
    simp only [pow_zero]
    omega
  | succ i ih =>
    have hsplit : 2 ^ (i + 1) = 2 ^ i * 2 := by rw [pow_succ]
    have hb : b / 2 / 2 ^ i % 2 = 0 := by
      rw [Nat.div_div_eq_div_mul, Nat.mul_comm 2 (2 ^ i), ← hsplit]
      exact h
    have h1 : (b ||| 2 ^ (i + 1)) / 2 = b / 2 + 2 ^ i := by
      rw [Nat.or_div_two]
      have : 2 ^ (i + 1) / 2 = 2 ^ i := by
        rw [hsplit, Nat.mul_div_cancel _ (by norm_num)]
      rw [this, ih hb]
    have h2 : (b ||| 2 ^ (i + 1)) % 2 = 1 ↔ b % 2 = 1 := by
      rw [Nat.or_mod_two_eq_one]
      have : ¬ (2 ^ (i + 1) % 2 = 1) := by
        rw [hsplit]
        omega
      tauto
    omega

/-- Adding a power of two at a clear bit position changes exactly that bit. -/
theorem add_two_pow_xor {i b : Nat} (h : b / 2 ^ i % 2 = 0) :
    (b + 2 ^ i) ^^^ b = 2 ^ i := by
  induction i generalizing b with
  | zero =>
    simp only [pow_zero, Nat.div_one] at h
    have h1 : ((b + 1) ^^^ b) % 2 = 1 := by
      rw [Nat.xor_mod_two_eq_one]
      omega
    have h2 : ((b + 1) ^^^ b) / 2 = 0 := by
      rw [Nat.xor_div_two]
      have : (b + 1) / 2 = b / 2 := by omega
      rw [this]
      simp
    simp only [pow_zero]
    omega
  | succ i ih =>
    have hsplit : 2 ^ (i + 1) = 2 ^ i * 2 := by rw [pow_succ]
    have hb : b / 2 / 2 ^ i % 2 = 0 := by
      rw [Nat.div_div_eq_div_mul, Nat.mul_comm 2 (2 ^ i), ← hsplit]
      exact h
    have h1 : ((b + 2 ^ (i + 1)) ^^^ b) / 2 = 2 ^ i := by
      rw [Nat.xor_div_two]
      have : (b + 2 ^ (i + 1)) / 2 = b / 2 + 2 ^ i := by omega
      rw [this, ih hb]
    have h2 : ((b + 2 ^ (i + 1)) ^^^ b) % 2 = 0 := by
      have hiff := @Nat.xor_mod_two_eq_one (b + 2 ^ (i + 1)) b
      omega
    omega

/-! Claim theorems. -/

/-- C4: construction create(base, p) succeeds iff 0 ≤ p ≤ 32, failing for
all p outside that range; on success it stores base and prefix length
unchanged, with no masking or normalization applied to the base. -/
theorem new_valid_range (b : IpAddress) (p : Nat) :
    (IpNetwork.new b p = if p ≤ 32 then some ⟨b, p⟩ else none) ∧
    ((IpNetwork.new b p).isSome ↔ 0 ≤ p ∧ p ≤ 32) := by
  unfold IpNetwork.new
  by_cases hp : p ≤ 32 <;> simp [hp]

/-- C9: for every valid network, num_network_bits + num_host_bits = 32. -/
theorem bits_sum_32 (n : IpNetwork) (h : n.prefix_len ≤ 32) :
    n.num_network_bits + n.num_host_bits = 32 := by
  unfold IpNetwork.num_host_bits IpNetwork.num_network_bits
  omega

theorem bits_sum_32_witness :
    (IpNetwork.mk (IpAddress.new 0) 24).prefix_len ≤ 32 ∧
    (IpNetwork.mk (IpAddress.new 0) 24).num_network_bits +
      (IpNetwork.mk (IpAddress.new 0) 24).num_host_bits = 32 :=
  ⟨by decide, bits_sum_32 (IpNetwork.mk (IpAddress.new 0) 24) (by decide)⟩

/-- C5: for every valid network, num_hosts is exactly 2 ^ num_host_bits,
with no u64 overflow; it is 1 at prefix length 32, 2 at prefix length 31,
and 4294967296 at prefix length 0. -/
theorem num_hosts_pow (n : IpNetwork) (h : n.prefix_len ≤ 32) :
    (n.num_hosts = 2 ^ (32 - n.prefix_len) ∧ 2 ^ (32 - n.prefix_len) < 2 ^ 64) ∧
    (IpNetwork.mk n.base 32).num_hosts = 1 ∧
    (IpNetwork.mk n.base 31).num_hosts = 2 ∧
    (IpNetwork.mk n.base 0).num_hosts = 4294967296 := by
  obtain ⟨b, p⟩ := n
  refine ⟨?_, rfl, rfl, rfl⟩
  simp only at h
  interval_cases p <;> exact ⟨rfl, by norm_num⟩

theorem num_hosts_pow_witness :
    (IpNetwork.mk (IpAddress.new 0) 8).prefix_len ≤ 32 ∧
    (((IpNetwork.mk (IpAddress.new 0) 8).num_hosts = 2 ^ (32 - 8) ∧
        2 ^ (32 - 8) < 2 ^ 64) ∧
      (IpNetwork.mk (IpAddress.new 0) 32).num_hosts = 1 ∧
      (IpNetwork.mk (IpAddress.new 0) 31).num_hosts = 2 ∧
      (IpNetwork.mk (IpAddress.new 0) 0).num_hosts = 4294967296) :=
  ⟨by decide, num_hosts_pow (IpNetwork.mk (IpAddress.new 0) 8) (by decide)⟩

/-- C6: for every valid network, supernet is none iff the prefix length is 0;
otherwise it is the network with the same, un-remasked base and the prefix
length decremented by one, and this construction succeeds. -/
theorem supernet_spec (n : IpNetwork) (h : n.prefix_len ≤ 32) :
    (n.supernet = if n.prefix_len = 0 then none
      else some ⟨n.base, n.prefix_len - 1⟩) ∧
    (n.supernet = none ↔ n.prefix_len = 0) := by
  obtain ⟨b, p⟩ := n
  simp only at h
  match p with
  | 0 => exact ⟨rfl, by simp [IpNetwork.supernet, IpNetwork.num_network_bits]⟩
  | m + 1 =>
    have hm : 0 ≤ m ∧ m ≤ 32 := by omega
    constructor
    · simp [IpNetwork.supernet, IpNetwork.num_network_bits, IpNetwork.new, hm]
    · simp [IpNetwork.supernet, IpNetwork.num_network_bits, IpNetwork.new, hm]

theorem supernet_spec_witness :
    (IpNetwork.mk (IpAddress.new 7) 9).prefix_len ≤ 32 ∧
    (((IpNetwork.mk (IpAddress.new 7) 9).supernet =
        if (IpNetwork.mk (IpAddress.new 7) 9).prefix_len = 0 then none
        else some ⟨(IpNetwork.mk (IpAddress.new 7) 9).base,
                   (IpNetwork.mk (IpAddress.new 7) 9).prefix_len - 1⟩) ∧
      ((IpNetwork.mk (IpAddress.new 7) 9).supernet = none ↔
        (IpNetwork.mk (IpAddress.new 7) 9).prefix_len = 0)) :=
  ⟨by decide, supernet_spec (IpNetwork.mk (IpAddress.new 7) 9) (by decide)⟩

/-- Helper: the mask of a valid network is the top prefix_len bits set. -/
theorem get_mask_formula (b : IpAddress) (p : Nat) (h : p ≤ 32) :
    (IpNetwork.mk b p).get_mask = IpAddress.new ((2 ^ p - 1) * 2 ^ (32 - p)) := by
  interval_cases p <;>
    simp [IpNetwork.get_mask, IpNetwork.num_network_bits, IpAddress.new, u32not,
      U32_MAX, Nat.shiftRight_eq_div_pow]

/-- C2: for every valid network, the mask has the top num_network_bits bits
set and the rest clear; it is all-zeros at prefix length 0 regardless of
base, 255.255.0.0 at prefix length 16, and all-ones at prefix length 32. -/
theorem get_mask_spec (n : IpNetwork) (h : n.prefix_len ≤ 32) :
    n.get_mask = IpAddress.new ((2 ^ n.prefix_len - 1) * 2 ^ (32 - n.prefix_len)) ∧
    (IpNetwork.mk n.base 0).get_mask = IpAddress.new 0 ∧
    (IpNetwork.mk n.base 16).get_mask = IpAddress.fromOctets (255, 255, 0, 0) ∧
    (IpNetwork.mk n.base 32).get_mask = IpAddress.fromOctets (255, 255, 255, 255) := by
  obtain ⟨b, p⟩ := n
  simp only at h
  refine ⟨get_mask_formula b p h, ?_, ?_, ?_⟩
  · rw [get_mask_formula b 0 (by norm_num)]
    norm_num
  · rw [get_mask_formula b 16 (by norm_num)]
    simp [IpAddress.fromOctets, u32fromBeBytes, IpAddress.new]
  · rw [get_mask_formula b 32 (by norm_num)]
    simp [IpAddress.fromOctets, u32fromBeBytes, IpAddress.new]

theorem get_mask_spec_witness :
    (IpNetwork.mk (IpAddress.new 11) 7).prefix_len ≤ 32 ∧
    ((IpNetwork.mk (IpAddress.new 11) 7).get_mask =
        IpAddress.new ((2 ^ 7 - 1) * 2 ^ (32 - 7)) ∧
      (IpNetwork.mk (IpAddress.new 11) 0).get_mask = IpAddress.new 0 ∧
      (IpNetwork.mk (IpAddress.new 11) 16).get_mask = IpAddress.fromOctets (255, 255, 0, 0) ∧
      (IpNetwork.mk (IpAddress.new 11) 32).get_mask =
        IpAddress.fromOctets (255, 255, 255, 255)) :=
  ⟨by decide, get_mask_spec (IpNetwork.mk (IpAddress.new 11) 7) (by decide)⟩

/-- C3: for every valid network, subnets is none iff the prefix length is 32;
otherwise it is the pair (upper, lower), in that order, where lower keeps the
same base at prefix length + 1 and upper sets bit 31 - prefix_len. -/
theorem subnets_none_iff (n : IpNetwork) (h : n.prefix_len ≤ 32) :
    (n.subnets = if n.prefix_len = 32 then none
      else some (⟨IpAddress.new (n.base.val ||| 1 <<< (31 - n.prefix_len)),
                   n.prefix_len + 1⟩,
                 ⟨n.base, n.prefix_len + 1⟩)) ∧
    (n.subnets = none ↔ n.prefix_len = 32) := by
  obtain ⟨b, p⟩ := n
  simp only at h ⊢
  by_cases hp : p = 32
  · subst hp
    have : ¬ (0 ≤ 33 ∧ 33 ≤ 32) := by omega
    constructor
    · simp [IpNetwork.subnets, IpNetwork.num_network_bits, IpNetwork.new, this]
    · simp [IpNetwork.subnets, IpNetwork.num_network_bits, IpNetwork.new, this]
  · have hle : 0 ≤ p + 1 ∧ p + 1 ≤ 32 := by omega
    have hhb : 32 - (p + 1) = 31 - p := by omega
    constructor
    · simp only [IpNetwork.subnets, IpNetwork.num_network_bits, IpNetwork.new,
        if_pos hle, IpNetwork.num_host_bits, if_neg hp]
      rw [hhb]
    · simp [IpNetwork.subnets, IpNetwork.num_network_bits, IpNetwork.new, hle, hp]

theorem subnets_none_iff_witness :
    (IpNetwork.mk (IpAddress.new 3232235520) 24).prefix_len ≤ 32 ∧
    (((IpNetwork.mk (IpAddress.new 3232235520) 24).subnets =
        if (IpNetwork.mk (IpAddress.new 3232235520) 24).prefix_len = 32 then none
        else some (⟨IpAddress.new (3232235520 ||| 1 <<< (31 - 24)), 24 + 1⟩,
                   ⟨IpAddress.new 3232235520, 24 + 1⟩)) ∧
      ((IpNetwork.mk (IpAddress.new 3232235520) 24).subnets = none ↔
        (IpNetwork.mk (IpAddress.new 3232235520) 24).prefix_len = 32)) :=
  ⟨by decide, subnets_none_iff (IpNetwork.mk (IpAddress.new 3232235520) 24) (by decide)⟩

/-- C7: octet conversion round-trips in both directions: to_octets after
from_octets is the identity on 4-byte arrays, and from_octets after
to_octets is the identity on u32 address values. -/
theorem octets_roundtrip (a b c d v : Nat)
    (ha : a < 256) (hb : b < 256) (hc : c < 256) (hd : d < 256)
    (hv : v < 2 ^ 32) :
    (IpAddress.fromOctets (a, b, c, d)).octets = (a, b, c, d) ∧
    IpAddress.fromOctets (IpAddress.octets (IpAddress.new v)) = IpAddress.new v := by
  constructor
  · simp only [IpAddress.fromOctets, IpAddress.octets, IpAddress.new,
      u32fromBeBytes, u32toBeBytes, Prod.mk.injEq]
    norm_num
    omega
  · simp only [IpAddress.fromOctets, IpAddress.octets, IpAddress.new,
      u32fromBeBytes, u32toBeBytes, IpAddress.mk.injEq]
    norm_num at hv ⊢
    omega

theorem octets_roundtrip_witness :
    (40 < 256 ∧ 200 < 256 ∧ 3 < 256 ∧ 145 < 256 ∧ 684196753 < 2 ^ 32) ∧
    ((IpAddress.fromOctets (40, 200, 3, 145)).octets = (40, 200, 3, 145) ∧
      IpAddress.fromOctets (IpAddress.octets (IpAddress.new 684196753)) =
        IpAddress.new 684196753) :=
  ⟨by decide,
   octets_roundtrip 40 200 3 145 684196753
     (by decide) (by decide) (by decide) (by decide) (by decide)⟩

/-- C8: rendering a network produces "address/prefix_len" with the base in
dotted-quad decimal; address 684196753 renders as "40.200.3.145", network
(0, 0) as "0.0.0.0/0", and network (255.255.255.255, 32) as
"255.255.255.255/32". -/
theorem render_spec :
    (∀ n : IpNetwork,
        n.render = n.base.render ++ "/" ++ Nat.repr n.prefix_len) ∧
    (IpAddress.new 684196753).render = "40.200.3.145" ∧
    (IpNetwork.mk (IpAddress.new 0) 0).render = "0.0.0.0/0" ∧
    (IpNetwork.mk (IpAddress.fromOctets (255, 255, 255, 255)) 32).render =
      "255.255.255.255/32" :=
  ⟨fun _ => rfl, by decide, by decide, by decide⟩

/-- C10: for every valid network below prefix length 32, subnets returns a
pair and the supernet of its lower component is the original network. -/
theorem subnets_lower_supernet_id (n : IpNetwork) (h : n.prefix_len < 32) :
    lower_then_supernet n = some n ∧ n.subnets.isSome = true := by
  obtain ⟨b, p⟩ := n
  simp only at h
  have h1 : 0 ≤ p + 1 ∧ p + 1 ≤ 32 := by omega
  have h2 : 0 ≤ p ∧ p ≤ 32 := by omega
  constructor
  · simp only [lower_then_supernet, IpNetwork.subnets, IpNetwork.num_network_bits,
      IpNetwork.new, if_pos h1, Option.bind, IpNetwork.supernet, if_pos h2]
  · simp [IpNetwork.subnets, IpNetwork.num_network_bits, IpNetwork.new, h1]

theorem subnets_lower_supernet_id_witness :
    (IpNetwork.mk (IpAddress.new 167772160) 8).prefix_len < 32 ∧
    (lower_then_supernet (IpNetwork.mk (IpAddress.new 167772160) 8) =
        some (IpNetwork.mk (IpAddress.new 167772160) 8) ∧
      (IpNetwork.mk (IpAddress.new 167772160) 8).subnets.isSome = true) :=
  ⟨by decide, subnets_lower_supernet_id (IpNetwork.mk (IpAddress.new 167772160) 8) (by decide)⟩

/-- C1 counterexample: at the network 128.0.0.0/0, whose base already has
bit 31 set, subnets returns an upper network whose base equals the lower
network's base, so the two bases do not differ in exactly one bit (their
exclusive or is 0, not 2 ^ (31 - 0)). -/
theorem subnets_one_bit_counterexample :
    (IpNetwork.mk (IpAddress.new (2 ^ 31)) 0).subnets =
      some (IpNetwork.mk (IpAddress.new (2 ^ 31)) 1,
            IpNetwork.mk (IpAddress.new (2 ^ 31)) 1) ∧
    (2 ^ 31 : Nat) ^^^ (2 ^ 31 : Nat) ≠ 2 ^ (31 - 0) :=
  ⟨by decide, by decide⟩

/-- C1 (amended): for every network at prefix length p < 32 whose base has
bit 31 - p clear, subnets returns two networks at prefix length p + 1; the
upper base is the lower base plus 2 ^ (31 - p), so the two bases differ in
exactly the bit at position 31 - p (their exclusive or is 2 ^ (31 - p));
and the two subnets partition exactly the address range the parent covers. -/
theorem subnets_one_bit_partition (n : IpNetwork) (hp : n.prefix_len < 32)
    (hb : n.base.val / 2 ^ (31 - n.prefix_len) % 2 = 0) :
    n.subnets =
      some (IpNetwork.mk (IpAddress.new (n.base.val + 2 ^ (31 - n.prefix_len)))
              (n.prefix_len + 1),
            IpNetwork.mk n.base (n.prefix_len + 1)) ∧
    (n.base.val + 2 ^ (31 - n.prefix_len)) ^^^ n.base.val = 2 ^ (31 - n.prefix_len) ∧
    n.covers =
      covers_either
        (IpNetwork.mk (IpAddress.new (n.base.val + 2 ^ (31 - n.prefix_len)))
          (n.prefix_len + 1))
        (IpNetwork.mk n.base (n.prefix_len + 1)) ∧
    covers_both
        (IpNetwork.mk (IpAddress.new (n.base.val + 2 ^ (31 - n.prefix_len)))
          (n.prefix_len + 1))
        (IpNetwork.mk n.base (n.prefix_len + 1)) = coversNone := by
  obtain ⟨⟨b⟩, p⟩ := n
  simp only at hp hb ⊢
  have h1 : 0 ≤ p + 1 ∧ p + 1 ≤ 32 := by omega
  have hhb : 32 - (p + 1) = 31 - p := by omega
  have h32 : 32 - p = (31 - p) + 1 := by omega
  have hlor : b ||| 2 ^ (31 - p) = b + 2 ^ (31 - p) := lor_two_pow_eq_add hb
  have hpos : 0 < 2 ^ (31 - p) := Nat.pos_pow_of_pos _ (by norm_num)
  have hupdiv : (b + 2 ^ (31 - p)) / 2 ^ (31 - p) = b / 2 ^ (31 - p) + 1 :=
    Nat.add_div_right b hpos
  have hhalf : ∀ a : Nat, a / 2 ^ (32 - p) = a / 2 ^ (31 - p) / 2 := by
    intro a
    rw [h32, Nat.div_div_eq_div_mul, pow_succ]
  refine ⟨?_, ?_, ?_, ?_⟩
  · simp only [IpNetwork.subnets, IpNetwork.num_network_bits, IpNetwork.new,
      if_pos h1, IpNetwork.num_host_bits, hhb, Nat.one_shiftLeft]
    simp only [IpAddress.new, hlor]
  · exact add_two_pow_xor hb
  · funext a
    simp only [IpNetwork.covers, covers_either, IpNetwork.num_host_bits,
      IpNetwork.num_network_bits, IpAddress.new, hhb]
    rw [Bool.eq_iff_iff]
    simp only [beq_iff_eq, Bool.or_eq_true]
    rw [hhalf a, hhalf b, hupdiv]
    constructor
    · intro hdiv
      omega
    · intro hdiv
      omega
  · funext a
    simp only [covers_both, IpNetwork.covers, IpNetwork.num_host_bits,
      IpNetwork.num_network_bits, IpAddress.new, hhb, coversNone]
    rw [hupdiv, Bool.and_eq_false_iff]
    simp only [beq_eq_false_iff_ne, ne_eq]
    omega

theorem subnets_one_bit_partition_witness :
    ((IpNetwork.mk (IpAddress.new 3232235520) 24).prefix_len < 32 ∧
      (IpNetwork.mk (IpAddress.new 3232235520) 24).base.val /
          2 ^ (31 - (IpNetwork.mk (IpAddress.new 3232235520) 24).prefix_len) % 2 = 0) ∧
    ((IpNetwork.mk (IpAddress.new 3232235520) 24).subnets =
        some (IpNetwork.mk (IpAddress.new (3232235520 + 2 ^ (31 - 24))) (24 + 1),
              IpNetwork.mk (IpAddress.new 3232235520) (24 + 1)) ∧
      (3232235520 + 2 ^ (31 - 24)) ^^^ 3232235520 = 2 ^ (31 - 24) ∧
      (IpNetwork.mk (IpAddress.new 3232235520) 24).covers =
        covers_either
          (IpNetwork.mk (IpAddress.new (3232235520 + 2 ^ (31 - 24))) (24 + 1))
          (IpNetwork.mk (IpAddress.new 3232235520) (24 + 1)) ∧
      covers_both
          (IpNetwork.mk (IpAddress.new (3232235520 + 2 ^ (31 - 24))) (24 + 1))
          (IpNetwork.mk (IpAddress.new 3232235520) (24 + 1)) = coversNone) :=
  ⟨by decide,
   subnets_one_bit_partition (IpNetwork.mk (IpAddress.new 3232235520) 24)
     (by decide) (by decide)⟩
